import Mathlib

/-!
Verification of the raster-image transformation engine against its
natural-language specification.  The definitions below are shallow
embeddings of the pixel-level algorithms of the source files
`src/components/MatrixBackground.tsx`, `src/hooks/useImageProcessor.ts`,
`src/hooks/usePreviewEffect.ts` and `src/components/BackgroundRemoval.tsx`.

Machine-number conventions used throughout:
* canvas pixel channels are bytes held in a `Uint8ClampedArray`; a store
  into such an array clamps to `[0,255]` and rounds to the nearest
  integer, ties to even (`storeByte` below);
* the Sobel edge plane is a `Uint8Array`; a store into it truncates the
  (nonnegative) value toward zero and reduces modulo 256;
* `Math.round` rounds half away from zero toward positive infinity for
  nonnegative arguments (`jsRoundQ`, `jsRoundR` below);
* JavaScript number arithmetic is modelled exactly over `ℚ` (or `ℝ`
  where the source takes square roots); the double-rounding error of
  IEEE doubles is far below every decision boundary exercised here.
-/

set_option linter.unusedVariables false

namespace Convert

/-- One RGBA8 pixel; channel values are bytes held as naturals. -/
structure Pix where
  r : ℕ
  g : ℕ
  b : ℕ
  a : ℕ
deriving DecidableEq, Repr

/-- A RasterBuffer: width, height and the RGBA plane, addressed as
`pix x y` with `0 ≤ x < width`, `0 ≤ y < height` (coordinates outside
the buffer are never read by the guarded loops below). -/
structure Image where
  width : ℕ
  height : ℕ
  pix : ℕ → ℕ → Pix

/-- Round to the nearest integer, ties to even: the rounding performed by
a `Uint8ClampedArray` store for a value already inside `[0,255]`. -/
def rheQ (q : ℚ) : ℤ :=
  let f := ⌊q⌋
  let frac := q - f
  if frac < 1/2 then f
  else if 1/2 < frac then f + 1
  else if f % 2 = 0 then f else f + 1

/-- `Uint8ClampedArray` store semantics: clamp to `[0,255]`, then round
to nearest, ties to even. -/
def storeByte (q : ℚ) : ℕ :=
  if q ≤ 0 then 0
  else if 255 ≤ q then 255
  else (rheQ q).toNat

/-- `Math.round` on a nonnegative rational: half rounds up. -/
def jsRoundQ (q : ℚ) : ℤ := ⌊q + 1/2⌋

/-- `Math.min` on rationals, written as a bare comparison so the kernel
can evaluate it. -/
def qmin (a b : ℚ) : ℚ := if a ≤ b then a else b

/-- `Math.max` on rationals. -/
def qmax (a b : ℚ) : ℚ := if b ≤ a then a else b

/-- `Math.abs` on rationals. -/
def qabs (q : ℚ) : ℚ := if q < 0 then -q else q

/-- Clamp an integer to the byte range; `Uint8ClampedArray` store of an
integer-valued expression (no rounding needed). -/
def clampByte (z : ℤ) : ℕ := (if z ≤ 0 then 0 else if 255 ≤ z then 255 else z).toNat

namespace MatrixBackground

/-- Mirror axis selector of the advanced-effects panel. -/
inductive MirrorAxis where
  | vertical
  | horizontal
  | both
deriving DecidableEq, Repr

/-- The advanced-effects parameters of `MatrixBackground.tsx`
(`applyAdvancedEffects` closure state).  Colors are RGB triples: the
source parses hex strings with `hexToRgb`; the parse is outside the
pixel pipeline and the triple is taken as given. -/
structure AdvSettings where
  noiseAmount : ℚ
  kaleidoscope : ℚ
  mirror : Bool
  mirrorAxis : MirrorAxis
  colorSplash : Bool
  targetHue : ℚ
  hueTolerance : ℚ
  glitchIntensity : ℚ
  gamma : ℚ
  cbR : ℤ
  cbG : ℤ
  cbB : ℤ
  splitToning : Bool
  highlightColor : ℕ × ℕ × ℕ
  shadowColor : ℕ × ℕ × ℕ

/-- `rgbToHsl` of `MatrixBackground.tsx`: returns `(h, s, l)` with
`h ∈ [0,360)`, `s, l ∈ [0,100]`.  The JS `switch (max)` takes the first
matching case, in the order `r`, `g`, `b`. -/
def rgbToHsl (r g b : ℕ) : ℚ × ℚ × ℚ :=
  let rq : ℚ := r / 255
  let gq : ℚ := g / 255
  let bq : ℚ := b / 255
  let mx := qmax rq (qmax gq bq)
  let mn := qmin rq (qmin gq bq)
  let l := (mx + mn) / 2
  if mx = mn then (0, 0, l * 100)
  else
    let d := mx - mn
    let s := if l > 1/2 then d / (2 - mx - mn) else d / (mx + mn)
    let h :=
      if mx = rq then (gq - bq) / d + (if gq < bq then (6 : ℚ) else 0)
      else if mx = gq then (bq - rq) / d + 2
      else (rq - gq) / d + 4
    (h / 6 * 360, s * 100, l * 100)

/-- Noise pass: one uniform draw per pixel (consumed in raster order,
index `y * width + x`), the same draw added to r, g and b, clamped to
`[0,255]` before the store.  Alpha is not written. -/
def noisePass (amount : ℚ) (rand : ℕ → ℚ) (img : Image) : Image :=
  ⟨img.width, img.height, fun x y =>
    let p := img.pix x y
    let noise := (rand (y * img.width + x) - 1/2) * amount
    ⟨storeByte (qmin 255 (qmax 0 ((p.r : ℚ) + noise))),
     storeByte (qmin 255 (qmax 0 ((p.g : ℚ) + noise))),
     storeByte (qmin 255 (qmax 0 ((p.b : ℚ) + noise))),
     p.a⟩⟩

/-- Luminance-weighted grayscale value used by the color-splash pass. -/
def lumOf (p : Pix) : ℚ :=
  (2126 / 10000 : ℚ) * p.r + (7152 / 10000 : ℚ) * p.g + (722 / 10000 : ℚ) * p.b

/-- The pixel a color-splash replacement produces: the luminance on all
three color channels, alpha untouched. -/
def grayPix (p : Pix) : Pix :=
  ⟨storeByte (lumOf p), storeByte (lumOf p), storeByte (lumOf p), p.a⟩

/-- Color-splash decision and replacement for one pixel, translated from
the source: replace by grayscale when `hueDiff > hueTolerance` and
`360 - hueDiff > hueTolerance`. -/
def colorSplashPix (targetHue hueTolerance : ℚ) (p : Pix) : Pix :=
  let h := (rgbToHsl p.r p.g p.b).1
  let hueDiff := qabs (h - targetHue)
  if hueDiff > hueTolerance ∧ 360 - hueDiff > hueTolerance then grayPix p else p

/-- Color-splash pass over the plane. -/
def colorSplashPass (targetHue hueTolerance : ℚ) (img : Image) : Image :=
  ⟨img.width, img.height, fun x y => colorSplashPix targetHue hueTolerance (img.pix x y)⟩

/-- Gamma pass.  `Math.pow` on IEEE doubles is not exactly expressible;
it enters as the parameter `powF`, applied as the source does:
`powF (c/255) gamma * 255`, stored through the clamped-array store. -/
def gammaPass (powF : ℚ → ℚ → ℚ) (gamma : ℚ) (img : Image) : Image :=
  ⟨img.width, img.height, fun x y =>
    let p := img.pix x y
    ⟨storeByte (powF ((p.r : ℚ) / 255) gamma * 255),
     storeByte (powF ((p.g : ℚ) / 255) gamma * 255),
     storeByte (powF ((p.b : ℚ) / 255) gamma * 255),
     p.a⟩⟩

/-- Color-balance pass: per-channel integer offset, clamped. -/
def colorBalancePass (br bg bb : ℤ) (img : Image) : Image :=
  ⟨img.width, img.height, fun x y =>
    let p := img.pix x y
    ⟨clampByte ((p.r : ℤ) + br), clampByte ((p.g : ℤ) + bg),
     clampByte ((p.b : ℤ) + bb), p.a⟩⟩

/-- Split-toning pass: brightness is the mean of the current r, g, b
over 255; above 1/2 blend 50/50 with the highlight color, otherwise with
the shadow color. -/
def splitToningPass (hi lo : ℕ × ℕ × ℕ) (img : Image) : Image :=
  ⟨img.width, img.height, fun x y =>
    let p := img.pix x y
    let brightness : ℚ := ((p.r : ℚ) + p.g + p.b) / (3 * 255)
    if brightness > 1/2 then
      ⟨storeByte (((p.r : ℚ) + hi.1) / 2), storeByte (((p.g : ℚ) + hi.2.1) / 2),
       storeByte (((p.b : ℚ) + hi.2.2) / 2), p.a⟩
    else
      ⟨storeByte (((p.r : ℚ) + lo.1) / 2), storeByte (((p.g : ℚ) + lo.2.1) / 2),
       storeByte (((p.b : ℚ) + lo.2.2) / 2), p.a⟩⟩

/-- `applyAdvancedEffects` of `MatrixBackground.tsx`.

The source keeps two copies of the pixels: the canvas (drawn into by the
kaleidoscope, mirror and glitch branches through `ctx` calls) and the
`imageData.data` array fetched once at the start (mutated by the noise,
color-splash, gamma, color-balance and split-toning loops).  The canvas
drawing of the three geometric branches is an external rasterizer and
enters as the parameters `kaleidoOp`, `mirrorOp`, `glitchOp`, threaded
exactly as the source threads the canvas.  The final
`ctx.putImageData(imageData, 0, 0)` overwrites the whole canvas with the
data array, so the returned pixels are the data array after the five
per-pixel loops. -/
def applyAdvancedEffects (s : AdvSettings) (rand : ℕ → ℚ) (powF : ℚ → ℚ → ℚ)
    (kaleidoOp mirrorOp glitchOp : Image → Image) (img : Image) : Image :=
  let data1 := if 0 < s.noiseAmount then noisePass s.noiseAmount rand img else img
  let canvas1 := if 0 < s.kaleidoscope then kaleidoOp img else img
  let canvas2 := if s.mirror then mirrorOp canvas1 else canvas1
  let data2 := if s.colorSplash then colorSplashPass s.targetHue s.hueTolerance data1 else data1
  let canvas3 := if 0 < s.glitchIntensity then glitchOp canvas2 else canvas2
  let data3 := if s.gamma ≠ 1 then gammaPass powF s.gamma data2 else data2
  let data4 := if s.cbR ≠ 0 ∨ s.cbG ≠ 0 ∨ s.cbB ≠ 0
               then colorBalancePass s.cbR s.cbG s.cbB data3 else data3
  let data5 := if s.splitToning then splitToningPass s.highlightColor s.shadowColor data4 else data4
  data5

end MatrixBackground

namespace ImageProcessor

/-- One CSS filter function of the `ctx.filter` string both pipelines
build (`brightness(..%) contrast(..%) blur(..px) saturate(..%)
sepia(..%) hue-rotate(..deg) [invert(100%)] [grayscale(100%)]`). -/
inductive FilterOp where
  | brightness (q : ℚ)
  | contrast (q : ℚ)
  | blur (q : ℚ)
  | saturate (q : ℚ)
  | sepia (q : ℚ)
  | hueRotate (q : ℚ)
  | invert
  | grayscale

/-- The `ProcessingOptions` record of `useImageProcessor.ts` restricted
to the pixel-pipeline parameters (format/quality govern the encode step
at the pipeline boundary, not the pixel stages).  `tintColor` is `none`
for the string `'none'`, otherwise the parsed RGB triple. -/
structure ProcOptions where
  brightness : ℚ
  contrast : ℚ
  blur : ℚ
  saturation : ℚ
  sepia : ℚ
  hueRotate : ℚ
  invert : Bool
  grayscale : Bool
  pixelate : ℚ
  emboss : Bool
  rotation : ℚ
  flipX : Bool
  flipY : Bool
  tintColor : Option (ℕ × ℕ × ℕ)
  tintIntensity : ℚ

/-- The filter list both `processImage` and `generatePreview` build:
six always-present entries, then `invert(100%)` and `grayscale(100%)`
when toggled (the `.filter(Boolean)` drops the empty strings). -/
def filtersOf (o : ProcOptions) : List FilterOp :=
  [FilterOp.brightness o.brightness, FilterOp.contrast o.contrast,
   FilterOp.blur o.blur, FilterOp.saturate o.saturation,
   FilterOp.sepia o.sepia, FilterOp.hueRotate o.hueRotate]
  ++ (if o.invert then [FilterOp.invert] else [])
  ++ (if o.grayscale then [FilterOp.grayscale] else [])

/-- The emboss loop shared verbatim by `processImage` and
`generatePreview`: the flat array is walked in raster order, the first
pixel of each row (`i % (width*4) === 0`) is skipped, and every other
pixel is overwritten in place with
`128 + 2*(cur - pixels[i-4])` per color channel — `pixels[i-4]` is the
value already written for the left neighbor.  The store clamps to
`[0,255]`; alpha is not written.  Rows are independent, so the plane is
computed row by row, recursing on the column. -/
def embossRowPix (img : Image) (y : ℕ) : ℕ → Pix
  | 0 => img.pix 0 y
  | x + 1 =>
    let prev := embossRowPix img y x
    let cur := img.pix (x + 1) y
    ⟨clampByte (128 + 2 * ((cur.r : ℤ) - prev.r)),
     clampByte (128 + 2 * ((cur.g : ℤ) - prev.g)),
     clampByte (128 + 2 * ((cur.b : ℤ) - prev.b)),
     cur.a⟩

/-- Emboss stage over the whole buffer. -/
def embossImage (img : Image) : Image :=
  ⟨img.width, img.height, fun x y => embossRowPix img y x⟩

/-- `processImage` of `useImageProcessor.ts`, pixel pipeline.  The
canvas rasterizer calls that are not per-pixel loops enter as
parameters: `geomOp` (the translate/rotate/scale/translate/drawImage
block applied first), `pixOp` (the downscale/upscale pixelation
draw, entered only when `pixelate > 1`), `cssOp` (the `ctx.filter`
compositor applied to the filter list), and `tintOp` (the
multiply-composite `fillRect` of the tint color at alpha
`tintIntensity/100`, entered only when `tintColor !== 'none'`).
Stage order in the source: geometric, pixelation, emboss, CSS filter
chain, tint overlay. -/
def processImagePipeline
    (geomOp : ℚ → Bool → Bool → Image → Image)
    (pixOp : ℚ → Image → Image)
    (cssOp : List FilterOp → Image → Image)
    (tintOp : ℕ × ℕ × ℕ → ℚ → Image → Image)
    (o : ProcOptions) (img : Image) : Image :=
  let a := geomOp o.rotation o.flipX o.flipY img
  let b := if 1 < o.pixelate then pixOp o.pixelate a else a
  let c := if o.emboss then embossImage b else b
  let d := cssOp (filtersOf o) c
  match o.tintColor with
  | some col => tintOp col (o.tintIntensity / 100) d
  | none => d

/-- `generatePreview` of `usePreviewEffect.ts`, pixel pipeline.  Same
stages and the same parameter functions as `processImagePipeline`, but
the source applies the tint overlay to the main canvas before drawing
it through the `ctx.filter` compositor: geometric, pixelation, emboss,
tint overlay, CSS filter chain. -/
def generatePreviewPipeline
    (geomOp : ℚ → Bool → Bool → Image → Image)
    (pixOp : ℚ → Image → Image)
    (cssOp : List FilterOp → Image → Image)
    (tintOp : ℕ × ℕ × ℕ → ℚ → Image → Image)
    (o : ProcOptions) (img : Image) : Image :=
  let a := geomOp o.rotation o.flipX o.flipY img
  let b := if 1 < o.pixelate then pixOp o.pixelate a else a
  let c := if o.emboss then embossImage b else b
  let d := match o.tintColor with
           | some col => tintOp col (o.tintIntensity / 100) c
           | none => c
  cssOp (filtersOf o) d

/-- A batch input file: name and an opaque decoded payload. -/
structure BFile where
  name : String
  data : ℕ
deriving DecidableEq, Repr

/-- Archive member name: `<basename>-converted.<format>`, where the
basename is `file.name.split('.')[0]`. -/
def zipMemberName (f : BFile) (fmt : String) : String :=
  ((f.name.splitOn ".").headD "") ++ "-converted." ++ fmt

/-- One `zip.file(name, blob)` call.  JSZip keys members by name: adding
a name that already exists replaces that member's content in place
(keeping its position), otherwise the member is appended. -/
def zipFile (archive : List (String × ℕ)) (name : String) (blob : ℕ) :
    List (String × ℕ) :=
  if archive.any (fun m => m.1 = name)
  then archive.map (fun m => if m.1 = name then (name, blob) else m)
  else archive ++ [(name, blob)]

/-- The blob an item contributes when its processing succeeds. -/
def blobOf (proc : BFile → Except String ℕ) (f : BFile) : ℕ :=
  match proc f with
  | Except.ok b => b
  | Except.error _ => 0

/-- The `zip.file` calls the per-item promises perform, in the order the
promises complete (the items are launched concurrently by `files.map`,
so this order is an arbitrary permutation of the input list, not the
input order). -/
def addMembers (proc : BFile → Except String ℕ) (fmt : String) :
    List BFile → List (String × ℕ) → List (String × ℕ)
  | [], acc => acc
  | f :: fs, acc =>
    addMembers proc fmt fs (zipFile acc (zipMemberName f fmt) (blobOf proc f))

/-- Whether the combined `Promise.all` rejects: true exactly when some
item's `processImage` promise rejects. -/
def anyFails (proc : BFile → Except String ℕ) : List BFile → Bool
  | [] => false
  | f :: fs =>
    (match proc f with
     | Except.error _ => true
     | Except.ok _ => false) || anyFails proc fs

/-- Observable outcome of `convertBatch`: either the generated zip
archive is downloaded (all items succeeded) or the whole batch is
aborted by the outer catch (some item failed; no archive, no per-item
records). -/
inductive BatchOutcome where
  | completed (archive : List (String × ℕ))
  | aborted
deriving DecidableEq, Repr

/-- `convertBatch` of `useImageProcessor.ts`: one try/catch around the
whole `Promise.all`.  If any item rejects, the catch fires and the zip
is never generated; otherwise the zip holds the members added by the
per-item promises in their completion order `order` (a permutation of
`files` chosen by the scheduler). -/
def convertBatch (proc : BFile → Except String ℕ) (fmt : String)
    (files : List BFile) (order : List BFile) : BatchOutcome :=
  if anyFails proc files
  then BatchOutcome.aborted
  else BatchOutcome.completed (addMembers proc fmt order [])

end ImageProcessor

namespace BackgroundRemoval

open MatrixBackground in
/-- Horizontal Sobel response at `(x, y)` (red channel only), kernel
`[-1,0,1;-2,0,2;-1,0,1]`; meaningful for `1 ≤ x, y` (the caller guards
the borders). -/
def sobelGx (img : Image) (x y : ℕ) : ℤ :=
  -((img.pix (x - 1) (y - 1)).r : ℤ) + ((img.pix (x + 1) (y - 1)).r : ℤ)
  - 2 * ((img.pix (x - 1) y).r : ℤ) + 2 * ((img.pix (x + 1) y).r : ℤ)
  - ((img.pix (x - 1) (y + 1)).r : ℤ) + ((img.pix (x + 1) (y + 1)).r : ℤ)

/-- Vertical Sobel response, kernel `[-1,-2,-1;0,0,0;1,2,1]`. -/
def sobelGy (img : Image) (x y : ℕ) : ℤ :=
  -((img.pix (x - 1) (y - 1)).r : ℤ) - 2 * ((img.pix x (y - 1)).r : ℤ)
  - ((img.pix (x + 1) (y - 1)).r : ℤ)
  + ((img.pix (x - 1) (y + 1)).r : ℤ) + 2 * ((img.pix x (y + 1)).r : ℤ)
  + ((img.pix (x + 1) (y + 1)).r : ℤ)

/-- The true (untruncated) gradient magnitude
`floor (sqrt (gx^2 + gy^2))`: for natural radicands the floor of the
real square root is `Nat.sqrt`, and the correctly rounded IEEE
`Math.sqrt` truncates to the same integer in the exercised range. -/
def sobelMagnitude (img : Image) (x y : ℕ) : ℕ :=
  Nat.sqrt ((sobelGx img x y ^ 2 + sobelGy img x y ^ 2).toNat)

/-- `applySobelOperator` of `BackgroundRemoval.tsx`: the magnitude is
stored into a `Uint8Array` plane (`ToUint8`: truncate, reduce mod 256);
the loop covers `1 ≤ x ≤ width-2`, `1 ≤ y ≤ height-2` and the plane is
zero-initialized, so border pixels stay 0. -/
def applySobelOperator (img : Image) (x y : ℕ) : ℕ :=
  if 1 ≤ x ∧ x + 1 < img.width ∧ 1 ≤ y ∧ y + 1 < img.height
  then sobelMagnitude img x y % 256
  else 0

/-- Squared color distance from white.  The source compares
`Math.sqrt ((255-r)^2 + (255-g)^2 + (255-b)^2) > tolerance`; for a
nonnegative integer tolerance that comparison is exactly
`colorDiffSq > tolerance^2`, the form used by the decidable
classifier below. -/
def colorDiffSq (p : Pix) : ℤ :=
  (255 - (p.r : ℤ)) ^ 2 + (255 - (p.g : ℤ)) ^ 2 + (255 - (p.b : ℤ)) ^ 2

/-- The foreground classification producing the initial mask:
`edgeStrength > threshold || colorDiff > tolerance` gives 255, else 0. -/
def classifyMask (img : Image) (threshold tolerance : ℕ) (x y : ℕ) : ℕ :=
  if (threshold : ℕ) < applySobelOperator img x y
     ∨ ((tolerance : ℤ) ^ 2 < colorDiffSq (img.pix x y))
  then 255 else 0

/-- The 3×3 neighborhood offsets of `smoothMask` (`radius = 1`). -/
def smoothNbhd : Finset (ℤ × ℤ) := Finset.Icc (-1) 1 ×ˢ Finset.Icc (-1) 1

/-- In-bounds test for a neighbor offset. -/
def inb (w h : ℕ) (x y : ℕ) (d : ℤ × ℤ) : Prop :=
  0 ≤ (x : ℤ) + d.1 ∧ (x : ℤ) + d.1 < w ∧ 0 ≤ (y : ℤ) + d.2 ∧ (y : ℤ) + d.2 < h

instance (w h x y : ℕ) (d : ℤ × ℤ) : Decidable (inb w h x y d) := by
  unfold inb; infer_instance

/-- Sum of the in-bounds 3×3 neighborhood mask values. -/
def smoothSum (m : ℕ → ℕ → ℕ) (w h x y : ℕ) : ℕ :=
  ∑ d ∈ smoothNbhd,
    if inb w h x y d then m ((x : ℤ) + d.1).toNat ((y : ℤ) + d.2).toNat else 0

/-- Number of in-bounds neighbors. -/
def smoothCount (w h x y : ℕ) : ℕ :=
  ∑ d ∈ smoothNbhd, if inb w h x y d then 1 else 0

/-- One `smoothMask` pass of `BackgroundRemoval.tsx`:
`Math.round(sum / count)` of the unweighted 3×3 neighborhood, clamped at
the image edges by the bounds test. -/
def smoothMask (m : ℕ → ℕ → ℕ) (w h x y : ℕ) : ℕ :=
  (jsRoundQ ((smoothSum m w h x y : ℚ) / (smoothCount w h x y : ℚ))).toNat

/-- `smoothing` passes of the box blur, as the `for` loop runs them. -/
def smoothIter (w h : ℕ) (m : ℕ → ℕ → ℕ) : ℕ → ℕ → ℕ → ℕ
  | 0 => m
  | n + 1 => fun x y => smoothMask (smoothIter w h m n) w h x y

/-- Neighborhood offsets of `featherMask` for feather radius `size`. -/
def featherNbhd (size : ℕ) : Finset (ℤ × ℤ) :=
  Finset.Icc (-(size : ℤ)) size ×ˢ Finset.Icc (-(size : ℤ)) size

/-- Euclidean offset distance used by `featherMask`. -/
noncomputable def featherDist (d : ℤ × ℤ) : ℝ :=
  Real.sqrt ((d.1 : ℝ) ^ 2 + (d.2 : ℝ) ^ 2)

/-- Cone weight `1 - distance/size` of `featherMask`. -/
noncomputable def featherWeight (size : ℕ) (d : ℤ × ℤ) : ℝ :=
  1 - featherDist d / size

open Classical in
/-- Weighted neighborhood sum of `featherMask`: a neighbor contributes
when it is in bounds and its distance is at most `size`. -/
noncomputable def featherSumR (m : ℕ → ℕ → ℕ) (w h size x y : ℕ) : ℝ :=
  ∑ d ∈ featherNbhd size,
    if inb w h x y d ∧ featherDist d ≤ size
    then (m ((x : ℤ) + d.1).toNat ((y : ℤ) + d.2).toNat : ℝ) * featherWeight size d
    else 0

open Classical in
/-- Weight total (`count`) of `featherMask`. -/
noncomputable def featherCountR (w h size x y : ℕ) : ℝ :=
  ∑ d ∈ featherNbhd size,
    if inb w h x y d ∧ featherDist d ≤ size then featherWeight size d else 0

/-- `featherMask` of `BackgroundRemoval.tsx`:
`Math.round(sum / count)` of the cone-weighted neighborhood. -/
noncomputable def featherMask (m : ℕ → ℕ → ℕ) (w h size x y : ℕ) : ℕ :=
  (⌊featherSumR m w h size x y / featherCountR w h size x y + 1 / 2⌋).toNat

/-- The mask pipeline of `processImage` in `BackgroundRemoval.tsx`:
classification, then `smoothing` box-blur passes (the `if smoothing > 0`
guard and the loop coincide with plain iteration), then one feathering
pass when `featherSize > 0`. -/
noncomputable def maskPipeline (img : Image)
    (threshold tolerance smoothing featherSize : ℕ) : ℕ → ℕ → ℕ :=
  let m0 := fun x y => classifyMask img threshold tolerance x y
  let m1 := smoothIter img.width img.height m0 smoothing
  if 0 < featherSize
  then fun x y => featherMask m1 img.width img.height featherSize x y
  else m1

/-- `processImage` of `BackgroundRemoval.tsx`, output buffer: the final
loop writes the derived mask into `data[i+3]` and touches no other
component; the RGB plane is returned as read. -/
noncomputable def removeBackgroundImage (img : Image)
    (threshold tolerance smoothing featherSize : ℕ) : Image :=
  ⟨img.width, img.height, fun x y =>
    let p := img.pix x y
    ⟨p.r, p.g, p.b, maskPipeline img threshold tolerance smoothing featherSize x y⟩⟩

end BackgroundRemoval

section Fixtures

open MatrixBackground ImageProcessor BackgroundRemoval

/-- All-neutral advanced-effect settings (the reset values of the
panel, with every toggle off and every amount at its no-op value). -/
def neutralAdv : AdvSettings :=
  { noiseAmount := 0, kaleidoscope := 0, mirror := false,
    mirrorAxis := MirrorAxis.vertical, colorSplash := false, targetHue := 0,
    hueTolerance := 20, glitchIntensity := 0, gamma := 1, cbR := 0, cbG := 0,
    cbB := 0, splitToning := false, highlightColor := (255, 235, 59),
    shadowColor := (63, 81, 181) }

/-- Settings with only the noise effect enabled. -/
def noiseOnly : AdvSettings := { neutralAdv with noiseAmount := 100 }

/-- Settings with only the mirror effect enabled (vertical axis). -/
def mirrorOnly : AdvSettings := { neutralAdv with mirror := true }

/-- A 1×1 gray buffer. -/
def img1 : Image := ⟨1, 1, fun _ _ => ⟨100, 100, 100, 255⟩⟩

/-- A 2×1 buffer whose two pixels differ (not mirror-symmetric). -/
def img2 : Image :=
  ⟨2, 1, fun x _ => if x = 0 then ⟨10, 20, 30, 255⟩ else ⟨40, 50, 60, 255⟩⟩

/-- A 3×1 gray ramp used against the emboss stage. -/
def img3 : Image :=
  ⟨3, 1, fun x _ =>
    if x = 0 then ⟨100, 100, 100, 255⟩
    else if x = 1 then ⟨110, 110, 110, 255⟩
    else ⟨120, 120, 120, 255⟩⟩

/-- A random stream that always yields 0. -/
def randA : ℕ → ℚ := fun _ => 0

/-- A random stream that always yields 1/2. -/
def randB : ℕ → ℚ := fun _ => 1 / 2

/-- A stand-in for `Math.pow`; never reached when `gamma = 1`. -/
def powId : ℚ → ℚ → ℚ := fun x _ => x

/-- Modelled from the spec: the mirror effect for `mirrorAxis=vertical`,
"reflect the buffer across the vertical center line, compositing the
reflection over the original" — an opaque reflected copy covers the
buffer, so the composite is the horizontal flip. -/
def mirrorSpecVertical (img : Image) : Image :=
  ⟨img.width, img.height, fun x y => img.pix (img.width - 1 - x) y⟩

end Fixtures

section ClaimC1

open MatrixBackground

/-- C1, counterexample.  The noise pass adds
`(Math.random() - 0.5) * noiseAmount` per pixel: two runs of the same
pipeline on the same buffer with equal settings (`noiseAmount = 100`)
but different random draws produce different bytes at pixel (0,0), so
the claimed run-to-run determinism fails. -/
theorem noise_two_runs_differ :
    (applyAdvancedEffects noiseOnly randA powId id id id img1).pix 0 0
      = ⟨50, 50, 50, 255⟩ ∧
    (applyAdvancedEffects noiseOnly randB powId id id id img1).pix 0 0
      = ⟨100, 100, 100, 255⟩ ∧
    (applyAdvancedEffects noiseOnly randA powId id id id img1).pix 0 0
      ≠ (applyAdvancedEffects noiseOnly randB powId id id id img1).pix 0 0 := by
  have h1 : (applyAdvancedEffects noiseOnly randA powId id id id img1).pix 0 0
      = ⟨50, 50, 50, 255⟩ := by
    norm_num [applyAdvancedEffects, noisePass, noiseOnly, neutralAdv, img1,
      randA, storeByte, qmin, qmax, rheQ]
    decide
  have h2 : (applyAdvancedEffects noiseOnly randB powId id id id img1).pix 0 0
      = ⟨100, 100, 100, 255⟩ := by
    norm_num [applyAdvancedEffects, noisePass, noiseOnly, neutralAdv, img1,
      randB, storeByte, qmin, qmax, rheQ]
    decide
  refine ⟨h1, h2, ?_⟩
  rw [h1, h2]
  decide

/-- C1, amended.  With `noiseAmount = 0` the pipeline is deterministic:
the output pixels do not depend on the random stream, nor on anything
the kaleidoscope, mirror or glitch branches draw (the final
`putImageData` overwrites the canvas with the data array), so two runs
with equal settings are byte-identical. -/
theorem pipeline_deterministic_without_noise
    (s : AdvSettings) (r1 r2 : ℕ → ℚ) (powF : ℚ → ℚ → ℚ)
    (k1 m1 g1 k2 m2 g2 : Image → Image) (img : Image)
    (h : s.noiseAmount = 0) (x y : ℕ) :
    (applyAdvancedEffects s r1 powF k1 m1 g1 img).pix x y
      = (applyAdvancedEffects s r2 powF k2 m2 g2 img).pix x y ∧
    (applyAdvancedEffects s r1 powF k1 m1 g1 img).width
      = (applyAdvancedEffects s r2 powF k2 m2 g2 img).width ∧
    (applyAdvancedEffects s r1 powF k1 m1 g1 img).height
      = (applyAdvancedEffects s r2 powF k2 m2 g2 img).height := by
  simp only [applyAdvancedEffects, h]
  norm_num

/-- Witness for `pipeline_deterministic_without_noise` at neutral
settings, two distinct random streams and distinct canvas rasterizers. -/
theorem pipeline_deterministic_without_noise_witness :
    (applyAdvancedEffects neutralAdv randA powId id id id img1).pix 0 0
      = (applyAdvancedEffects neutralAdv randB powId mirrorSpecVertical
          mirrorSpecVertical mirrorSpecVertical img1).pix 0 0 :=
  (pipeline_deterministic_without_noise neutralAdv randA randB powId
    id id id mirrorSpecVertical mirrorSpecVertical mirrorSpecVertical
    img1 rfl 0 0).1

end ClaimC1

section ClaimC4

open MatrixBackground

/-- C4 (code bug).  The kaleidoscope, mirror and glitch branches draw
on the canvas, but the final `ctx.putImageData(imageData, 0, 0)`
overwrites the whole canvas with the data array those branches never
touched: whatever the rasterizer does (`kOp`, `mOp`, `gOp` arbitrary),
enabling only the mirror effect returns the input pixels unchanged,
while the specified mirror composite differs from the input. -/
theorem canvas_effects_discarded :
    (∀ (rand : ℕ → ℚ) (powF : ℚ → ℚ → ℚ) (kOp mOp gOp : Image → Image),
      (applyAdvancedEffects mirrorOnly rand powF kOp mOp gOp img2).pix 0 0
        = img2.pix 0 0 ∧
      (applyAdvancedEffects mirrorOnly rand powF kOp mOp gOp img2).pix 1 0
        = img2.pix 1 0) ∧
    (mirrorSpecVertical img2).pix 0 0 ≠ img2.pix 0 0 := by
  refine ⟨fun rand powF kOp mOp gOp => ⟨rfl, rfl⟩, by decide⟩

end ClaimC4

section ClaimC10

open MatrixBackground

/-- Alpha projection of a pixel literal. -/
theorem pixMk_a (r g b a : ℕ) : (Pix.mk r g b a).a = a := rfl

/-- The noise pass written out at one pixel. -/
theorem noisePass_pix (amount : ℚ) (rand : ℕ → ℚ) (img : Image) (x y : ℕ) :
    (noisePass amount rand img).pix x y
      = ⟨storeByte (qmin 255 (qmax 0 (((img.pix x y).r : ℚ)
            + (rand (y * img.width + x) - 1/2) * amount))),
         storeByte (qmin 255 (qmax 0 (((img.pix x y).g : ℚ)
            + (rand (y * img.width + x) - 1/2) * amount))),
         storeByte (qmin 255 (qmax 0 (((img.pix x y).b : ℚ)
            + (rand (y * img.width + x) - 1/2) * amount))),
         (img.pix x y).a⟩ := rfl

/-- The gamma pass written out at one pixel. -/
theorem gammaPass_pix (powF : ℚ → ℚ → ℚ) (g : ℚ) (img : Image) (x y : ℕ) :
    (gammaPass powF g img).pix x y
      = ⟨storeByte (powF (((img.pix x y).r : ℚ) / 255) g * 255),
         storeByte (powF (((img.pix x y).g : ℚ) / 255) g * 255),
         storeByte (powF (((img.pix x y).b : ℚ) / 255) g * 255),
         (img.pix x y).a⟩ := rfl

/-- The color-balance pass written out at one pixel. -/
theorem colorBalancePass_pix (br bg bb : ℤ) (img : Image) (x y : ℕ) :
    (colorBalancePass br bg bb img).pix x y
      = ⟨clampByte (((img.pix x y).r : ℤ) + br),
         clampByte (((img.pix x y).g : ℤ) + bg),
         clampByte (((img.pix x y).b : ℤ) + bb),
         (img.pix x y).a⟩ := rfl

/-- The grayscale replacement pixel written out. -/
theorem grayPix_def (p : Pix) :
    grayPix p = ⟨storeByte (lumOf p), storeByte (lumOf p), storeByte (lumOf p), p.a⟩ := rfl

/-- The color-splash decision written out as a conditional. -/
theorem colorSplashPix_def (target tol : ℚ) (p : Pix) :
    colorSplashPix target tol p
      = if qabs ((rgbToHsl p.r p.g p.b).1 - target) > tol ∧
           360 - qabs ((rgbToHsl p.r p.g p.b).1 - target) > tol
        then grayPix p else p := rfl

/-- The split-toning pass written out at one pixel. -/
theorem splitToningPass_pix (hi lo : ℕ × ℕ × ℕ) (img : Image) (x y : ℕ) :
    (splitToningPass hi lo img).pix x y
      = if (((img.pix x y).r : ℚ) + (img.pix x y).g + (img.pix x y).b) / (3 * 255) > 1/2
        then ⟨storeByte ((((img.pix x y).r : ℚ) + hi.1) / 2),
              storeByte ((((img.pix x y).g : ℚ) + hi.2.1) / 2),
              storeByte ((((img.pix x y).b : ℚ) + hi.2.2) / 2),
              (img.pix x y).a⟩
        else ⟨storeByte ((((img.pix x y).r : ℚ) + lo.1) / 2),
              storeByte ((((img.pix x y).g : ℚ) + lo.2.1) / 2),
              storeByte ((((img.pix x y).b : ℚ) + lo.2.2) / 2),
              (img.pix x y).a⟩ := rfl

/-- C10.  Each per-pixel advanced effect loop (noise, color splash,
gamma, color balance, split toning) writes only `data[i]`, `data[i+1]`,
`data[i+2]`: the alpha component of every pixel is returned unchanged
by each of the five passes. -/
theorem advanced_effects_preserve_alpha :
    (∀ (amount : ℚ) (rand : ℕ → ℚ) (img : Image) (x y : ℕ),
      ((noisePass amount rand img).pix x y).a = (img.pix x y).a) ∧
    (∀ (target tol : ℚ) (img : Image) (x y : ℕ),
      ((colorSplashPass target tol img).pix x y).a = (img.pix x y).a) ∧
    (∀ (powF : ℚ → ℚ → ℚ) (g : ℚ) (img : Image) (x y : ℕ),
      ((gammaPass powF g img).pix x y).a = (img.pix x y).a) ∧
    (∀ (br bg bb : ℤ) (img : Image) (x y : ℕ),
      ((colorBalancePass br bg bb img).pix x y).a = (img.pix x y).a) ∧
    (∀ (hi lo : ℕ × ℕ × ℕ) (img : Image) (x y : ℕ),
      ((splitToningPass hi lo img).pix x y).a = (img.pix x y).a) := by
  refine ⟨fun amount rand img x y => ?_, fun target tol img x y => ?_,
    fun powF g img x y => ?_, fun br bg bb img x y => ?_,
    fun hi lo img x y => ?_⟩
  · rw [noisePass_pix, pixMk_a]
  · have hpix : (colorSplashPass target tol img).pix x y
        = colorSplashPix target tol (img.pix x y) := rfl
    have hg : (grayPix (img.pix x y)).a = (img.pix x y).a := by
      rw [grayPix_def, pixMk_a]
    rw [hpix, colorSplashPix_def, apply_ite Pix.a, hg]
    exact ite_self (img.pix x y).a
  · rw [gammaPass_pix, pixMk_a]
  · rw [colorBalancePass_pix, pixMk_a]
  · rw [splitToningPass_pix, apply_ite Pix.a, pixMk_a, pixMk_a]
    exact ite_self (img.pix x y).a

end ClaimC10

section ClaimC6

open MatrixBackground

/-- The executable `qabs` is the absolute value. -/
theorem qabs_eq_abs (q : ℚ) : qabs q = |q| := by
  unfold qabs
  split
  · exact (abs_of_neg (by assumption)).symm
  · exact (abs_of_nonneg (not_lt.mp (by assumption))).symm

/-- C6.  The color-splash replacement condition
`hueDiff > tol && 360 - hueDiff > tol` is exactly
`min |h - target| (360 - |h - target|) > tol` (the circular hue
distance), the replacement is the luminance-weighted grayscale, pixels
within tolerance are untouched — and the wraparound boundary case holds:
the pixel (240,0,20) has hue 355, circular distance 5 from target 0,
and is kept unchanged at tolerance 10. -/
theorem colorSplash_circular_tolerance :
    (∀ (target tol : ℚ) (p : Pix),
      (tol < min |(rgbToHsl p.r p.g p.b).1 - target|
          (360 - |(rgbToHsl p.r p.g p.b).1 - target|) →
        colorSplashPix target tol p = grayPix p) ∧
      (min |(rgbToHsl p.r p.g p.b).1 - target|
          (360 - |(rgbToHsl p.r p.g p.b).1 - target|) ≤ tol →
        colorSplashPix target tol p = p)) ∧
    (rgbToHsl 240 0 20).1 = 355 ∧
    colorSplashPix 0 10 ⟨240, 0, 20, 255⟩ = ⟨240, 0, 20, 255⟩ := by
  refine ⟨fun target tol p => ⟨fun hin => ?_, fun hout => ?_⟩,
    by norm_num [rgbToHsl, qmin, qmax],
    by norm_num [colorSplashPix, rgbToHsl, qabs, qmin, qmax]⟩
  · simp only [colorSplashPix, qabs_eq_abs]
    rw [if_pos (lt_min_iff.mp hin)]
  · simp only [colorSplashPix, qabs_eq_abs]
    rw [if_neg]
    intro hc
    rcases min_le_iff.mp hout with hle | hle
    · exact absurd hc.1 (not_lt.mpr hle)
    · exact absurd hc.2 (not_lt.mpr hle)

/-- Witness for `colorSplash_circular_tolerance`: pure green (hue 120)
is outside tolerance 10 of target hue 0 and is replaced by its
grayscale. -/
theorem colorSplash_circular_tolerance_witness :
    colorSplashPix 0 10 ⟨0, 255, 0, 255⟩ = grayPix ⟨0, 255, 0, 255⟩ :=
  (colorSplash_circular_tolerance.1 0 10 ⟨0, 255, 0, 255⟩).1
    (by norm_num [rgbToHsl, qmin, qmax, min_def, abs_of_nonneg])

end ClaimC6

section ClaimC3

open ImageProcessor

/-- Identity geometric rasterizer: with `rotation = 0` and both flips
off, the canvas transform of both pipelines is the identity draw. -/
def geomId : ℚ → Bool → Bool → Image → Image := fun _ _ _ img => img

/-- Identity pixelation rasterizer (never entered at `pixelate = 1`). -/
def pixId : ℚ → Image → Image := fun _ img => img

/-- Identity stand-in for the `ctx.filter` compositor. -/
def cssId : List FilterOp → Image → Image := fun _ img => img

/-- Identity stand-in for the tint compositor (never entered when
`tintColor` is `'none'`). -/
def tintZero : ℕ × ℕ × ℕ → ℚ → Image → Image := fun _ _ img => img

/-- Whether a filter entry is `invert(100%)`. -/
def isInvertOp : FilterOp → Bool
  | FilterOp.invert => true
  | _ => false

/-- Modelled from the spec: the browser `ctx.filter` compositor for
filter lists whose numeric entries are neutral — per §4.2,
brightness/contrast/saturate at 100%, blur at 0, sepia at 0 and
hue-rotate at 0 are identities, and `invert(100%)` replaces each color
channel with `255 - channel`, leaving alpha unchanged. -/
def cssNeutralInvert : List FilterOp → Image → Image := fun fl img =>
  if fl.any isInvertOp then
    ⟨img.width, img.height, fun x y =>
      let p := img.pix x y
      ⟨255 - p.r, 255 - p.g, 255 - p.b, p.a⟩⟩
  else img

/-- Modelled from the spec: the canvas `multiply` compositing of a
solid opaque fill at `globalAlpha` over an opaque backdrop (§4.2 Tint
Overlay): per color channel `C = (1-a)*Cb + a*(Cs*Cb/255)`, and the
source-over alpha of the opaque fill is 255. -/
def tintMultiplyOpaque : ℕ × ℕ × ℕ → ℚ → Image → Image := fun c al img =>
  ⟨img.width, img.height, fun x y =>
    let p := img.pix x y
    ⟨storeByte ((1 - al) * p.r + al * ((p.r : ℚ) * c.1 / 255)),
     storeByte ((1 - al) * p.g + al * ((p.g : ℚ) * c.2.1 / 255)),
     storeByte ((1 - al) * p.b + al * ((p.b : ℚ) * c.2.2 / 255)),
     255⟩⟩

/-- All-neutral processing options: identity filters, no geometric
change, no pixelation, no emboss, no tint. -/
def neutralOpts : ProcOptions :=
  { brightness := 100, contrast := 100, blur := 0, saturation := 100,
    sepia := 0, hueRotate := 0, invert := false, grayscale := false,
    pixelate := 1, emboss := false, rotation := 0, flipX := false,
    flipY := false, tintColor := none, tintIntensity := 0 }

/-- Options enabling only invert plus a full-strength red tint. -/
def invTintOpts : ProcOptions :=
  { neutralOpts with
    invert := true
    tintColor := some (255, 0, 0)
    tintIntensity := 100 }

/-- A 1×1 buffer on which invert and multiply-tint do not commute. -/
def imgTint : Image := ⟨1, 1, fun _ _ => ⟨100, 150, 200, 255⟩⟩

/-- C3, counterexample.  With invert on and a full-strength red tint,
the conversion pipeline (tint after the filter chain) yields
(155,0,0,255) at the only pixel while the preview pipeline (tint before
the filter chain) yields (155,255,255,255): the two pipelines do not
apply the stages in the same order and their outputs differ. -/
theorem preview_convert_tint_order_differs :
    (processImagePipeline geomId pixId cssNeutralInvert tintMultiplyOpaque
        invTintOpts imgTint).pix 0 0 = ⟨155, 0, 0, 255⟩ ∧
    (generatePreviewPipeline geomId pixId cssNeutralInvert tintMultiplyOpaque
        invTintOpts imgTint).pix 0 0 = ⟨155, 255, 255, 255⟩ ∧
    (processImagePipeline geomId pixId cssNeutralInvert tintMultiplyOpaque
        invTintOpts imgTint).pix 0 0
      ≠ (generatePreviewPipeline geomId pixId cssNeutralInvert tintMultiplyOpaque
          invTintOpts imgTint).pix 0 0 := by
  have h1 : (processImagePipeline geomId pixId cssNeutralInvert tintMultiplyOpaque
      invTintOpts imgTint).pix 0 0 = ⟨155, 0, 0, 255⟩ := by
    norm_num [processImagePipeline, geomId, pixId, cssNeutralInvert,
      tintMultiplyOpaque, invTintOpts, neutralOpts, filtersOf, imgTint,
      storeByte, rheQ]
    decide
  have h2 : (generatePreviewPipeline geomId pixId cssNeutralInvert tintMultiplyOpaque
      invTintOpts imgTint).pix 0 0 = ⟨155, 255, 255, 255⟩ := by
    norm_num [generatePreviewPipeline, geomId, pixId, cssNeutralInvert,
      tintMultiplyOpaque, invTintOpts, neutralOpts, filtersOf, imgTint,
      storeByte, rheQ]
    decide
  refine ⟨h1, h2, ?_⟩
  rw [h1, h2]
  decide

/-- C3, amended.  Both pipelines run geometric, pixelation and emboss
identically and build the same filter list; they produce identical
buffers whenever `tintColor` is `'none'`.  When a tint is set, the
conversion pipeline composites it after the filter chain and the
preview pipeline before it (see the counterexample). -/
theorem preview_convert_agree_without_tint
    (geomOp : ℚ → Bool → Bool → Image → Image)
    (pixOp : ℚ → Image → Image)
    (cssOp : List FilterOp → Image → Image)
    (tintOp : ℕ × ℕ × ℕ → ℚ → Image → Image)
    (o : ProcOptions) (img : Image) (h : o.tintColor = none) :
    processImagePipeline geomOp pixOp cssOp tintOp o img
      = generatePreviewPipeline geomOp pixOp cssOp tintOp o img := by
  simp only [processImagePipeline, generatePreviewPipeline, h]

/-- Witness for `preview_convert_agree_without_tint` at neutral options
on a concrete buffer with concrete compositor instantiations. -/
theorem preview_convert_agree_without_tint_witness :
    processImagePipeline geomId pixId cssNeutralInvert tintMultiplyOpaque
        neutralOpts imgTint
      = generatePreviewPipeline geomId pixId cssNeutralInvert tintMultiplyOpaque
          neutralOpts imgTint :=
  preview_convert_agree_without_tint geomId pixId cssNeutralInvert
    tintMultiplyOpaque neutralOpts imgTint rfl

end ClaimC3

section ClaimC5

open ImageProcessor

/-- Definition following the claim's words, for comparison with the
source emboss: `out = 128 + 2*(cur - prev)` where `cur` and `prev` are
the input (pre-emboss) values of the pixel and of its left neighbor;
first pixel of each row unmodified. -/
def embossClaimImage (img : Image) : Image :=
  ⟨img.width, img.height, fun x y =>
    if x = 0 then img.pix x y
    else
      let cur := img.pix x y
      let prev := img.pix (x - 1) y
      ⟨clampByte (128 + 2 * ((cur.r : ℤ) - prev.r)),
       clampByte (128 + 2 * ((cur.g : ℤ) - prev.g)),
       clampByte (128 + 2 * ((cur.b : ℤ) - prev.b)),
       cur.a⟩⟩

/-- C5, counterexample.  On the row 100, 110, 120 (all channels), the
source emboss writes 72 at the third pixel — `prev` is the value 148
already written for the second pixel — while the claimed pre-emboss
formula gives 148.  No clamping is involved: both values are interior
to [0,255]. -/
theorem emboss_prev_is_written_value :
    (embossImage img3).pix 2 0 = ⟨72, 72, 72, 255⟩ ∧
    (embossClaimImage img3).pix 2 0 = ⟨148, 148, 148, 255⟩ ∧
    (embossImage img3).pix 2 0 ≠ (embossClaimImage img3).pix 2 0 := by
  refine ⟨by decide, by decide, by decide⟩

/-- C5, amended.  The emboss stage leaves the first pixel of each row
unmodified, and maps every other pixel to
`clamp (128 + 2*(cur - prevOut))` per color channel, where `cur` is the
input value and `prevOut` is the already-embossed output value of the
left neighbor (the loop updates the array in place and reads
`pixels[i-4]` after writing it); the store clamps to [0,255] and alpha
is unchanged. -/
theorem emboss_characterization (img : Image) (x y : ℕ) (hx : 0 < x) :
    (embossImage img).pix 0 y = img.pix 0 y ∧
    ((embossImage img).pix x y).r
      = clampByte (128 + 2 * (((img.pix x y).r : ℤ)
          - (((embossImage img).pix (x - 1) y).r : ℤ))) ∧
    ((embossImage img).pix x y).g
      = clampByte (128 + 2 * (((img.pix x y).g : ℤ)
          - (((embossImage img).pix (x - 1) y).g : ℤ))) ∧
    ((embossImage img).pix x y).b
      = clampByte (128 + 2 * (((img.pix x y).b : ℤ)
          - (((embossImage img).pix (x - 1) y).b : ℤ))) ∧
    ((embossImage img).pix x y).a = (img.pix x y).a := by
  obtain ⟨n, rfl⟩ : ∃ n, x = n + 1 := ⟨x - 1, (Nat.succ_pred_eq_of_pos hx).symm⟩
  refine ⟨rfl, ?_, ?_, ?_, ?_⟩ <;>
    simp only [embossImage, embossRowPix, Nat.add_sub_cancel]

/-- Witness for `emboss_characterization` at the second pixel of the
concrete ramp `img3`. -/
theorem emboss_characterization_witness :
    ((embossImage img3).pix 1 0).r
      = clampByte (128 + 2 * (((img3.pix 1 0).r : ℤ)
          - (((embossImage img3).pix 0 0).r : ℤ))) :=
  (emboss_characterization img3 1 0 (by decide)).2.1

end ClaimC5

section ClaimC2

open ImageProcessor

/-- Batch item 1. -/
def fileA : BFile := ⟨"a.png", 1⟩

/-- Batch item 2, the item the failing processor rejects. -/
def fileB : BFile := ⟨"b.png", 2⟩

/-- Batch item 3. -/
def fileC : BFile := ⟨"c.png", 3⟩

/-- A processor that fails exactly on `b.png` (undecodable bytes) and
succeeds on everything else. -/
def proc3 : BFile → Except String ℕ := fun f =>
  if f.name = "b.png" then Except.error "undecodable" else Except.ok f.data

/-- A processor that succeeds on every item. -/
def procOK : BFile → Except String ℕ := fun f => Except.ok f.data

/-- The member names `zip.file` leaves behind: an overwrite keeps the
name list unchanged, a fresh name is appended. -/
theorem names_zipFile (acc : List (String × ℕ)) (m : String) (b : ℕ) :
    (zipFile acc m b).map Prod.fst
      = if acc.any (fun q => q.1 = m) then acc.map Prod.fst
        else acc.map Prod.fst ++ [m] := by
  unfold zipFile
  split
  · next h =>
    rw [List.map_map]
    apply List.map_congr_left
    intro q _
    by_cases hqm : q.1 = m
    · simp [hqm]
    · simp [hqm]
  · next h =>
    rw [List.map_append]
    rfl

/-- Name membership after one `zip.file` call. -/
theorem mem_names_zipFile (acc : List (String × ℕ)) (m : String) (b : ℕ)
    (n : String) :
    n ∈ (zipFile acc m b).map Prod.fst ↔ n ∈ acc.map Prod.fst ∨ n = m := by
  rw [names_zipFile]
  split
  · next h =>
    constructor
    · exact Or.inl
    · rintro (hn | rfl)
      · exact hn
      · rw [List.any_eq_true] at h
        obtain ⟨q, hq, hqe⟩ := h
        rw [decide_eq_true_eq] at hqe
        exact List.mem_map.mpr ⟨q, hq, hqe⟩
  · next h =>
    simp [List.mem_append]

/-- `zip.file` keeps the member names without duplicates. -/
theorem nodup_names_zipFile (acc : List (String × ℕ)) (m : String) (b : ℕ)
    (h : (acc.map Prod.fst).Nodup) :
    ((zipFile acc m b).map Prod.fst).Nodup := by
  rw [names_zipFile]
  split
  · exact h
  · next hany =>
    have hm : m ∉ acc.map Prod.fst := by
      intro hmem
      apply hany
      rw [List.any_eq_true]
      obtain ⟨q, hq, hqe⟩ := List.mem_map.mp hmem
      exact ⟨q, hq, by rw [decide_eq_true_eq]; exact hqe⟩
    refine List.nodup_append.mpr ⟨h, List.nodup_singleton m, ?_⟩
    intro a ha ha2
    rw [List.mem_singleton] at ha2
    exact hm (ha2 ▸ ha)

/-- A name is in the finished archive exactly when some completed item
bears it (or it was already present). -/
theorem mem_names_addMembers (proc : BFile → Except String ℕ) (fmt : String) :
    ∀ (order : List BFile) (acc : List (String × ℕ)) (n : String),
      n ∈ (addMembers proc fmt order acc).map Prod.fst
        ↔ n ∈ acc.map Prod.fst ∨ ∃ g ∈ order, zipMemberName g fmt = n := by
  intro order
  induction order with
  | nil => intro acc n; simp [addMembers]
  | cons g gs ih =>
    intro acc n
    rw [show addMembers proc fmt (g :: gs) acc
        = addMembers proc fmt gs
            (zipFile acc (zipMemberName g fmt) (blobOf proc g)) from rfl]
    rw [ih, mem_names_zipFile]
    constructor
    · rintro ((hn | rfl) | ⟨g2, hg2, he⟩)
      · exact Or.inl hn
      · exact Or.inr ⟨g, List.mem_cons_self g gs, rfl⟩
      · exact Or.inr ⟨g2, List.mem_cons_of_mem g hg2, he⟩
    · rintro (hn | ⟨g2, hg2, he⟩)
      · exact Or.inl (Or.inl hn)
      · rcases List.mem_cons.mp hg2 with h1 | h1
        · subst h1; exact Or.inl (Or.inr he.symm)
        · exact Or.inr ⟨g2, h1, he⟩

/-- The archive names stay duplicate-free throughout the insertions. -/
theorem nodup_names_addMembers (proc : BFile → Except String ℕ)
    (fmt : String) :
    ∀ (order : List BFile) (acc : List (String × ℕ)),
      (acc.map Prod.fst).Nodup →
      ((addMembers proc fmt order acc).map Prod.fst).Nodup := by
  intro order
  induction order with
  | nil => intro acc h; exact h
  | cons g gs ih => intro acc h; exact ih _ (nodup_names_zipFile _ _ _ h)

/-- Every archive member was either already present or is the name/blob
pair of one of the completed items. -/
theorem mem_addMembers (proc : BFile → Except String ℕ) (fmt : String) :
    ∀ (order : List BFile) (acc : List (String × ℕ)) (p : String × ℕ),
      p ∈ addMembers proc fmt order acc →
      p ∈ acc ∨ ∃ g ∈ order, p = (zipMemberName g fmt, blobOf proc g) := by
  intro order
  induction order with
  | nil => intro acc p hp; exact Or.inl hp
  | cons g gs ih =>
    intro acc p hp
    rcases ih _ p hp with hz | ⟨g2, hg2, he⟩
    · have hsplit : p ∈ acc ∨ p = (zipMemberName g fmt, blobOf proc g) := by
        unfold zipFile at hz
        split at hz
        · obtain ⟨q, hq, hqe⟩ := List.mem_map.mp hz
          by_cases hqm : q.1 = zipMemberName g fmt
          · right; rw [if_pos hqm] at hqe; exact hqe.symm
          · left; rw [if_neg hqm] at hqe; exact hqe ▸ hq
        · rcases List.mem_append.mp hz with h1 | h1
          · exact Or.inl h1
          · exact Or.inr (List.mem_singleton.mp h1)
      rcases hsplit with h1 | h1
      · exact Or.inl h1
      · exact Or.inr ⟨g, List.mem_cons_self g gs, h1⟩
    · exact Or.inr ⟨g2, List.mem_cons_of_mem g hg2, he⟩

/-- The combined promise rejects exactly when some item fails. -/
theorem anyFails_iff (proc : BFile → Except String ℕ) :
    ∀ (l : List BFile),
      anyFails proc l = true ↔ ∃ f ∈ l, ∃ e, proc f = Except.error e := by
  intro l
  induction l with
  | nil => simp [anyFails]
  | cons f fs ih =>
    cases hf : proc f with
    | error e =>
      constructor
      · intro _
        exact ⟨f, List.mem_cons_self f fs, e, hf⟩
      · intro _
        simp [anyFails, hf]
    | ok b =>
      constructor
      · intro h
        have h2 : anyFails proc fs = true := by simpa [anyFails, hf] using h
        obtain ⟨g, hg, e, he⟩ := ih.mp h2
        exact ⟨g, List.mem_cons_of_mem f hg, e, he⟩
      · rintro ⟨g, hg, e, he⟩
        rcases List.mem_cons.mp hg with h1 | h1
        · subst h1; rw [hf] at he; cases he
        · simpa [anyFails, hf] using ih.mpr ⟨g, h1, e, he⟩

/-- C2, counterexample.  A batch of three items in which only the
second fails (undecodable) is aborted whole by `convertBatch`: the
`Promise.all` rejects, the outer catch fires, no archive is generated
and no per-item Success/Failure records exist — there is no
PartialFailure outcome with two archive members. -/
theorem batch_single_failure_aborts :
    convertBatch proc3 "png" [fileA, fileB, fileC] [fileA, fileB, fileC]
      = BatchOutcome.aborted ∧
    proc3 fileA = Except.ok 1 ∧
    proc3 fileC = Except.ok 3 :=
  ⟨rfl, rfl, rfl⟩

/-- C2, amended.  `convertBatch` is all-or-nothing: if any item fails,
the whole batch is aborted (no archive, no per-item failure entries).
Only when every item succeeds is an archive generated, and then — for
every promise-completion order — its member names are exactly the
`<basename>-converted.<format>` names of the items, each name occurring
once (JSZip keys members by name, so items sharing a basename collapse
into a single member), and every member carries the output blob of an
item bearing that name; the member order follows the completion order,
not necessarily the input order. -/
theorem convertBatch_all_or_nothing (proc : BFile → Except String ℕ)
    (fmt : String) (files order : List BFile) (hord : order.Perm files) :
    ((∃ f ∈ files, ∃ e, proc f = Except.error e) →
      convertBatch proc fmt files order = BatchOutcome.aborted) ∧
    ((∀ f ∈ files, ∃ b, proc f = Except.ok b) →
      ∃ archive,
        convertBatch proc fmt files order = BatchOutcome.completed archive ∧
        (archive.map Prod.fst).Nodup ∧
        (∀ n, n ∈ archive.map Prod.fst ↔
          ∃ f ∈ files, zipMemberName f fmt = n) ∧
        (∀ m ∈ archive, ∃ f ∈ files,
          zipMemberName f fmt = m.1 ∧ blobOf proc f = m.2)) := by
  constructor
  · intro h
    unfold convertBatch
    rw [if_pos ((anyFails_iff proc files).mpr h)]
  · intro h
    have hfalse : anyFails proc files = false := by
      rcases hb : anyFails proc files with _ | _
      · rfl
      · obtain ⟨f, hf, e, he⟩ := (anyFails_iff proc files).mp hb
        obtain ⟨b, hbb⟩ := h f hf
        rw [hbb] at he
        cases he
    refine ⟨addMembers proc fmt order [], ?_, ?_, ?_, ?_⟩
    · simp [convertBatch, hfalse]
    · exact nodup_names_addMembers proc fmt order [] (by simp)
    · intro n
      rw [mem_names_addMembers proc fmt order [] n]
      simp only [List.map_nil, List.not_mem_nil, false_or]
      constructor
      · rintro ⟨g, hg, he⟩
        exact ⟨g, hord.mem_iff.mp hg, he⟩
      · rintro ⟨f, hf, he⟩
        exact ⟨f, hord.mem_iff.mpr hf, he⟩
    · intro m hm
      rcases mem_addMembers proc fmt order [] m hm with h0 | ⟨g, hg, he⟩
      · cases h0
      · exact ⟨g, hord.mem_iff.mp hg, by rw [he], by rw [he]⟩

/-- Witness for `convertBatch_all_or_nothing`: an all-successful batch
of two items, completing in the reverse of the input order, yields an
archive with both member names and the right blobs. -/
theorem convertBatch_all_or_nothing_witness :
    ∃ archive,
      convertBatch procOK "png" [fileA, fileC] [fileC, fileA]
        = BatchOutcome.completed archive ∧
      (archive.map Prod.fst).Nodup ∧
      (∀ n, n ∈ archive.map Prod.fst ↔
        ∃ f ∈ [fileA, fileC], zipMemberName f "png" = n) ∧
      (∀ m ∈ archive, ∃ f ∈ [fileA, fileC],
        zipMemberName f "png" = m.1 ∧ blobOf procOK f = m.2) :=
  (convertBatch_all_or_nothing procOK "png" [fileA, fileC] [fileC, fileA]
      (List.Perm.swap fileA fileC [])).2 (fun f _ => ⟨f.data, rfl⟩)

end ClaimC2

section ClaimC8

open BackgroundRemoval

/-- C8.  Background removal returns a buffer of the same dimensions
whose r, g, b channels equal the input values at every pixel, and whose
alpha channel is exactly the derived mask value for that pixel. -/
theorem removeBackground_frame (img : Image)
    (threshold tolerance smoothing featherSize x y : ℕ) :
    (removeBackgroundImage img threshold tolerance smoothing featherSize).width
      = img.width ∧
    (removeBackgroundImage img threshold tolerance smoothing featherSize).height
      = img.height ∧
    ((removeBackgroundImage img threshold tolerance smoothing featherSize).pix x y).r
      = (img.pix x y).r ∧
    ((removeBackgroundImage img threshold tolerance smoothing featherSize).pix x y).g
      = (img.pix x y).g ∧
    ((removeBackgroundImage img threshold tolerance smoothing featherSize).pix x y).b
      = (img.pix x y).b ∧
    ((removeBackgroundImage img threshold tolerance smoothing featherSize).pix x y).a
      = maskPipeline img threshold tolerance smoothing featherSize x y :=
  ⟨rfl, rfl, rfl, rfl, rfl, rfl⟩

end ClaimC8

section ClaimC7

open BackgroundRemoval

/-- A solid-color buffer: every coordinate yields the same pixel. -/
def constImage (w h : ℕ) (p : Pix) : Image := ⟨w, h, fun _ _ => p⟩

/-- Pixel access on a solid-color buffer. -/
theorem constImage_pix (w h : ℕ) (p : Pix) (x y : ℕ) :
    (constImage w h p).pix x y = p := rfl

/-- On a solid-color buffer both Sobel kernels cancel, so the stored
edge strength is 0 everywhere (interior by cancellation, border by the
zero initialization). -/
theorem sobel_const_zero (w h : ℕ) (p : Pix) (x y : ℕ) :
    applySobelOperator (constImage w h p) x y = 0 := by
  unfold applySobelOperator
  split
  · have hgx : sobelGx (constImage w h p) x y = 0 := by
      simp only [sobelGx, constImage_pix]; ring
    have hgy : sobelGy (constImage w h p) x y = 0 := by
      simp only [sobelGy, constImage_pix]; ring
    unfold sobelMagnitude
    rw [hgx, hgy]
    norm_num
  · rfl

/-- On a solid-color buffer the classification is the same at every
pixel. -/
theorem classify_const_indep (w h : ℕ) (p : Pix)
    (threshold tolerance x y : ℕ) :
    classifyMask (constImage w h p) threshold tolerance x y
      = classifyMask (constImage w h p) threshold tolerance 0 0 := by
  unfold classifyMask
  rw [sobel_const_zero, sobel_const_zero, constImage_pix, constImage_pix]

/-- Rounding a cast natural plus one half floors back to it. -/
theorem floor_cast_add_half (v : ℕ) : ⌊(v : ℚ) + 1 / 2⌋ = (v : ℤ) := by
  rw [Int.floor_eq_iff]
  constructor
  · push_cast; linarith
  · push_cast; linarith

/-- The real-valued counterpart of `floor_cast_add_half`. -/
theorem floor_cast_add_half_real (v : ℕ) : ⌊(v : ℝ) + 1 / 2⌋ = (v : ℤ) := by
  rw [Int.floor_eq_iff]
  constructor
  · push_cast; linarith
  · push_cast; linarith

/-- One box-blur pass maps a uniform mask to the same uniform mask. -/
theorem smooth_uniform (m : ℕ → ℕ → ℕ) (v w h x y : ℕ)
    (hm : ∀ a b, m a b = v) (hx : x < w) (hy : y < h) :
    smoothMask m w h x y = v := by
  have hsum : smoothSum m w h x y = v * smoothCount w h x y := by
    unfold smoothSum smoothCount
    rw [Finset.mul_sum]
    refine Finset.sum_congr rfl (fun d _ => ?_)
    by_cases hc : inb w h x y d
    · rw [if_pos hc, if_pos hc, hm, mul_one]
    · rw [if_neg hc, if_neg hc, mul_zero]
  have hcenter : inb w h x y ((0 : ℤ), (0 : ℤ)) := by
    refine ⟨by simp, ?_, by simp, ?_⟩
    · simpa using (by exact_mod_cast hx : (x : ℤ) < w)
    · simpa using (by exact_mod_cast hy : (y : ℤ) < h)
  have hmem : ((0 : ℤ), (0 : ℤ)) ∈ smoothNbhd := by decide
  have hcount : 0 < smoothCount w h x y := by
    have h1 : (if inb w h x y ((0 : ℤ), (0 : ℤ)) then 1 else 0)
        ≤ smoothCount w h x y :=
      Finset.single_le_sum (f := fun d => if inb w h x y d then 1 else 0)
        (fun i _ => Nat.zero_le _) hmem
    rw [if_pos hcenter] at h1
    omega
  unfold smoothMask
  rw [hsum]
  have hne : (smoothCount w h x y : ℚ) ≠ 0 := by exact_mod_cast hcount.ne'
  have hdiv : ((v * smoothCount w h x y : ℕ) : ℚ) / (smoothCount w h x y : ℚ)
      = (v : ℚ) := by
    push_cast
    field_simp
  rw [hdiv]
  unfold jsRoundQ
  rw [floor_cast_add_half]
  simp

/-- The cone-weighted feathering pass maps a uniform mask to the same
uniform mask (for a positive feather radius, as the source guard
ensures). -/
theorem feather_uniform (m : ℕ → ℕ → ℕ) (v w h size x y : ℕ)
    (hsize : 0 < size) (hm : ∀ a b, m a b = v) (hx : x < w) (hy : y < h) :
    featherMask m w h size x y = v := by
  have hsizeR : (0 : ℝ) < (size : ℝ) := by exact_mod_cast hsize
  have hsum : featherSumR m w h size x y = v * featherCountR w h size x y := by
    unfold featherSumR featherCountR
    rw [Finset.mul_sum]
    refine Finset.sum_congr rfl (fun d _ => ?_)
    by_cases hc : inb w h x y d ∧ featherDist d ≤ size
    · rw [if_pos hc, if_pos hc, hm]
    · rw [if_neg hc, if_neg hc, mul_zero]
  have hwnonneg : ∀ d ∈ featherNbhd size,
      0 ≤ (if inb w h x y d ∧ featherDist d ≤ size
           then featherWeight size d else 0) := by
    intro d _
    by_cases hc : inb w h x y d ∧ featherDist d ≤ size
    · rw [if_pos hc]
      unfold featherWeight
      have hle : featherDist d / size ≤ 1 := (div_le_one hsizeR).mpr hc.2
      linarith
    · rw [if_neg hc]
  have hmem : ((0 : ℤ), (0 : ℤ)) ∈ featherNbhd size := by
    refine Finset.mem_product.mpr ⟨?_, ?_⟩ <;>
      exact Finset.mem_Icc.mpr
        ⟨neg_nonpos.mpr (Int.natCast_nonneg size), Int.natCast_nonneg size⟩
  have hdist0 : featherDist ((0 : ℤ), (0 : ℤ)) = 0 := by
    simp [featherDist]
  have hcenter : inb w h x y ((0 : ℤ), (0 : ℤ)) ∧
      featherDist ((0 : ℤ), (0 : ℤ)) ≤ size := by
    refine ⟨⟨by simp, ?_, by simp, ?_⟩, ?_⟩
    · simpa using (by exact_mod_cast hx : (x : ℤ) < w)
    · simpa using (by exact_mod_cast hy : (y : ℤ) < h)
    · rw [hdist0]; positivity
  have hw0 : featherWeight size ((0 : ℤ), (0 : ℤ)) = 1 := by
    unfold featherWeight
    rw [hdist0]
    simp
  have hcount : 0 < featherCountR w h size x y := by
    have h1 : (if inb w h x y ((0 : ℤ), (0 : ℤ)) ∧
          featherDist ((0 : ℤ), (0 : ℤ)) ≤ size
        then featherWeight size ((0 : ℤ), (0 : ℤ)) else 0)
        ≤ featherCountR w h size x y :=
      Finset.single_le_sum hwnonneg hmem
    rw [if_pos hcenter, hw0] at h1
    linarith
  unfold featherMask
  rw [hsum, mul_div_assoc, div_self hcount.ne', mul_one, floor_cast_add_half_real]
  simp

/-- C7.  On a solid-color buffer with threshold 20 and tolerance 30:
the Sobel plane is 0 everywhere, the color distance from white is the
same at every pixel, the classification mask is a uniform plane whose
common value is 0 or 255, and both the box-blur smoothing pass and the
cone-weighted feathering pass map any uniform mask to itself. -/
theorem segmentation_uniform_input (w h : ℕ) (p : Pix) :
    (∀ x y, applySobelOperator (constImage w h p) x y = 0) ∧
    (∀ x y, colorDiffSq ((constImage w h p).pix x y) = colorDiffSq p) ∧
    (∀ x y, classifyMask (constImage w h p) 20 30 x y
        = classifyMask (constImage w h p) 20 30 0 0) ∧
    (classifyMask (constImage w h p) 20 30 0 0 = 0 ∨
      classifyMask (constImage w h p) 20 30 0 0 = 255) ∧
    (∀ (m : ℕ → ℕ → ℕ) (v : ℕ), (∀ a b, m a b = v) →
      ∀ x y, x < w → y < h → smoothMask m w h x y = v) ∧
    (∀ (m : ℕ → ℕ → ℕ) (v size : ℕ), 0 < size → (∀ a b, m a b = v) →
      ∀ x y, x < w → y < h → featherMask m w h size x y = v) := by
  refine ⟨fun x y => sobel_const_zero w h p x y,
    fun x y => rfl,
    fun x y => classify_const_indep w h p 20 30 x y,
    ?_,
    fun m v hm x y hx hy => smooth_uniform m v w h x y hm hx hy,
    fun m v size hsize hm x y hx hy =>
      feather_uniform m v w h size x y hsize hm hx hy⟩
  by_cases hc : (20 : ℕ) < applySobelOperator (constImage w h p) 0 0
      ∨ ((30 : ℕ) : ℤ) ^ 2 < colorDiffSq ((constImage w h p).pix 0 0)
  · right; unfold classifyMask; rw [if_pos hc]
  · left; unfold classifyMask; rw [if_neg hc]

/-- Witness for `segmentation_uniform_input`: the smoothing and
feathering conjuncts applied to concrete uniform masks on a 10×10
plane. -/
theorem segmentation_uniform_input_witness :
    smoothMask (fun _ _ => 7) 10 10 3 3 = 7 ∧
    featherMask (fun _ _ => 9) 10 10 2 4 4 = 9 :=
  ⟨(segmentation_uniform_input 10 10 ⟨200, 200, 200, 255⟩).2.2.2.2.1
      (fun _ _ => 7) 7 (fun _ _ => rfl) 3 3 (by decide) (by decide),
    (segmentation_uniform_input 10 10 ⟨200, 200, 200, 255⟩).2.2.2.2.2
      (fun _ _ => 9) 9 2 (by decide) (fun _ _ => rfl) 4 4 (by decide) (by decide)⟩

end ClaimC7

section ClaimC9

open BackgroundRemoval

/-- A 3×3 buffer with a strong vertical red-channel edge (column x=2 at
r=64 against r=0) and a white center pixel. -/
def imgC9 : Image :=
  ⟨3, 3, fun x y =>
    if x = 2 then ⟨64, 64, 64, 255⟩
    else if x = 1 ∧ y = 1 then ⟨255, 255, 255, 255⟩
    else ⟨0, 0, 0, 255⟩⟩

/-- C9.  The Sobel plane is a `Uint8Array`, so every interior stored
edge strength is the truncated magnitude reduced modulo 256; at the
center of `imgC9` the true magnitude is 256 (gx = 256, gy = 0), well
above the threshold 20, yet the stored value wraps to 0 and the white
center pixel (color distance 0 from white) is classified as
background. -/
theorem sobel_wraparound_background :
    (∀ (img : Image) (x y : ℕ),
      1 ≤ x → x + 1 < img.width → 1 ≤ y → y + 1 < img.height →
      applySobelOperator img x y = sobelMagnitude img x y % 256) ∧
    sobelMagnitude imgC9 1 1 = 256 ∧
    20 < sobelMagnitude imgC9 1 1 ∧
    applySobelOperator imgC9 1 1 = 0 ∧
    classifyMask imgC9 20 30 1 1 = 0 := by
  have hgx : sobelGx imgC9 1 1 = 256 := by norm_num [sobelGx, imgC9]
  have hgy : sobelGy imgC9 1 1 = 0 := by norm_num [sobelGy, imgC9]
  have hmag : sobelMagnitude imgC9 1 1 = 256 := by
    unfold sobelMagnitude
    rw [hgx, hgy]
    have h65536 : ((256 : ℤ) ^ 2 + 0 ^ 2).toNat = 65536 := by decide
    rw [h65536]
    norm_num
  have hsob : applySobelOperator imgC9 1 1 = 0 := by
    unfold applySobelOperator
    rw [if_pos (by decide : 1 ≤ 1 ∧ 1 + 1 < imgC9.width ∧ 1 ≤ 1 ∧
      1 + 1 < imgC9.height)]
    rw [hmag]
  refine ⟨fun img x y h1 h2 h3 h4 => ?_, hmag, by rw [hmag]; norm_num, hsob, ?_⟩
  · unfold applySobelOperator
    rw [if_pos ⟨h1, h2, h3, h4⟩]
  · unfold classifyMask
    rw [if_neg]
    rw [hsob]
    rintro (hlt | hlt)
    · exact absurd hlt (by norm_num)
    · exact absurd hlt (by norm_num [imgC9, colorDiffSq])

/-- Witness for `sobel_wraparound_background`: the interior-store
conjunct instantiated at the center of `imgC9`. -/
theorem sobel_wraparound_background_witness :
    applySobelOperator imgC9 1 1 = sobelMagnitude imgC9 1 1 % 256 :=
  sobel_wraparound_background.1 imgC9 1 1 (by decide) (by decide)
    (by decide) (by decide)

end ClaimC9

end Convert
